import Mathlib

/-!
# Verification of the rapt runtime instrumentation toolkit

A shallow embedding of the rapt crate: the `Instrument` value cell and its
`Serialize` implementation (src/lib.rs), the derive-generated instrument
board operations (rapt_derive/src/lib.rs), and the MQTT `Publisher` consumer
loop together with its control `Handle` (src/mqtt.rs).

Locks are modelled as a value plus a poison flag; fallible operations return
`Except`; the single-consumer loop is modelled as a function over the finite
prefix of messages delivered on the control queue, in queue (FIFO) order.
Listener notifications are recorded as the trace of names passed to the
listener's notify operation.
-/

namespace Rapt

/-- Model of std::sync::RwLock: the protected value together with the poison
flag.  Acquiring the lock fails exactly when the flag is set. -/
structure RwLock (T : Type) where
  value : T
  poisoned : Bool
deriving DecidableEq, Repr

/-- `UpdateError` from src/lib.rs (lines 171-175). -/
inductive UpdateError where
  | PoisonedData
  | PoisonedTimestamp
deriving DecidableEq, Repr

/-- `ReadError` from src/lib.rs (lines 267-271). -/
inductive ReadError (E : Type) where
  | SerializationError (e : E)
  | NotFound
deriving Repr

/-- `Instrument<T, L>` from src/lib.rs: a lock-protected value, an optional
name and an optional listener, plus the timestamp cell used by the
`timestamp_instruments` build (the configuration under which
`Instrument::update` compiles, since `update` touches `self.timestamp`
unconditionally).  The timestamp value is modelled as a `Nat` tick. -/
structure Instrument (T L : Type) where
  data : RwLock T
  name : Option String
  listener : Option L
  timestamp : RwLock Nat
deriving DecidableEq, Repr

variable {T L Er B : Type}

/-- `Instrument::new(data)`: fresh unpoisoned cell, no name, no listener. -/
def Instrument.new (data : T) : Instrument T L :=
  { data := ⟨data, false⟩, name := none, listener := none, timestamp := ⟨0, false⟩ }

/-- `Instrument::read`: the data lock's read acquisition; fails on poison. -/
def Instrument.read (i : Instrument T L) : Except Unit T :=
  if i.data.poisoned then .error () else .ok i.data.value

/-- `Instrument::set_name_and_listener` (src/lib.rs lines 216-220): sets the
name, synchronously notifies the listener with that name once, then stores
the listener.  The second component is the trace of notify calls made. -/
def Instrument.set_name_and_listener (i : Instrument T L) (n : String) (listener : L) :
    Instrument T L × List String :=
  ({ i with name := some n, listener := some listener }, [n])

/-- The outcome of `Instrument::update`: the instrument afterwards, the trace
of listener notify calls made, and the returned `Result`. -/
structure UpdateOutcome (T L : Type) where
  instr : Instrument T L
  notified : List String
  result : Except UpdateError Unit
deriving Repr

/-- `Instrument::update` (src/lib.rs lines 228-246): acquire the data write
lock (poison fails with `PoisonedData`); apply the mutator in place; acquire
the timestamp write lock (poison also fails with `PoisonedData`, keeping the
already-applied mutation); store the current time; if both a listener and a
name are present, call the listener's notify with the name; return `Ok`. -/
def Instrument.update (i : Instrument T L) (f : T → T) (now : Nat) : UpdateOutcome T L :=
  if i.data.poisoned then
    { instr := i, notified := [], result := .error .PoisonedData }
  else
    let data' : RwLock T := { value := f i.data.value, poisoned := i.data.poisoned }
    if i.timestamp.poisoned then
      { instr := { i with data := data' }, notified := [], result := .error .PoisonedData }
    else
      let ts' : RwLock Nat := { value := now, poisoned := i.timestamp.poisoned }
      match i.listener, i.name with
      | some _, some n =>
          { instr := { i with data := data', timestamp := ts' }, notified := [n],
            result := .ok () }
      | _, _ =>
          { instr := { i with data := data', timestamp := ts' }, notified := [],
            result := .ok () }

/-- The "value" field emitted by `impl Serialize for Instrument` (src/lib.rs
lines 248-261): `Some` of the wrapped value when the data lock reads cleanly,
the `None` case when the data lock is poisoned. -/
def Instrument.serializeValueField (i : Instrument T L) : Option T :=
  match i.read with
  | .ok v => some v
  | .error _ => none

/-- `impl Serialize for Instrument`, abstracted over the collaborating
serializer: `encValue` encodes the "value" field (an `Option`), `encTs`
encodes the "last_update_at" field from the timestamp lock (delegated to the
serde `RwLock` implementation, a collaborator outside this crate).  Failure
can only arise from those collaborator calls. -/
def Instrument.serializeWith (encValue : Option T → Except Er Unit)
    (encTs : RwLock Nat → Except Er Unit) (i : Instrument T L) : Except Er Unit := do
  encValue i.serializeValueField
  encTs i.timestamp

/-- A struct deriving `Instruments`, modelled as its ordered list of
(instrument key, instrument field) pairs in field registration order
(rapt_derive/src/lib.rs). -/
abbrev Board (T L : Type) := List (String × Instrument T L)

/-- `instrument_names` as generated by the derive (rapt_derive/src/lib.rs
lines 115-117): the keys, in field registration order. -/
def instrument_names (b : Board T L) : List String := b.map (fun p => p.1)

/-- First instrument registered under `key`, mirroring the order in which the
generated `match` arms are tried. -/
def lookup_instrument : Board T L → String → Option (Instrument T L)
  | [], _ => none
  | (n, i) :: rest, key => if key = n then some i else lookup_instrument rest key

/-- `serialize_reading` as generated by the derive (rapt_derive/src/lib.rs
lines 109-114): try the match arms in field order; on a hit, encode that
instrument (`enc` abstracts `self.field.serialize(serializer)`), wrapping an
encoder failure as `SerializationError`; otherwise `NotFound`.  The second
component records which instruments' encoders were invoked (so `NotFound`
demonstrably writes no output). -/
def serialize_reading : Board T L → String → (Instrument T L → Except Er B) →
    Except (ReadError Er) B × List String
  | [], _, _ => (.error .NotFound, [])
  | (n, i) :: rest, key, enc =>
    if key = n then
      match enc i with
      | .ok v => (.ok v, [n])
      | .error e => (.error (.SerializationError e), [n])
    else serialize_reading rest key enc

/-- `wire_listener` as generated by the derive (rapt_derive/src/lib.rs lines
118-120): call `set_name_and_listener(key, listener.clone())` on every field,
in field registration order.  The second component is the concatenated trace
of listener notify calls. -/
def wire_listener : Board T L → L → Board T L × List String
  | [], _ => ([], [])
  | (n, i) :: rest, listener =>
    let w := Instrument.set_name_and_listener i n listener
    let r := wire_listener rest listener
    ((n, w.1) :: r.1, w.2 ++ r.2)

/-- A field of a struct deriving `Instruments`: its identifier and the
optional `#[rapt(name = "...")]` override. -/
structure FieldSpec where
  ident : String
  rapt_name : Option String
deriving DecidableEq, Repr

/-- The instrument key the derive computes for a field (rapt_derive/src/lib.rs
lines 86-90): the override when present, else the field identifier. -/
def field_instrument_name (f : FieldSpec) : String :=
  match f.rapt_name with
  | some s => s
  | none => f.ident

/-- The key sequence the derive generates for a field list: field
registration order, with overrides applied. -/
def derive_names (fs : List FieldSpec) : List String := fs.map field_instrument_name

/-- Publisher control messages (src/mqtt.rs lines 82-87). -/
inductive Message where
  | Update (name : String)
  | Shutdown
deriving DecidableEq, Repr

/-- `Handle::shutdown` sends this message on the control queue
(src/mqtt.rs lines 241-246); the handle is cloneable, so any thread may send
it any number of times. -/
def Handle_shutdown_message : Message := Message.Shutdown

/-- `impl Listener for Handle`: notify sends this message on the control
queue (src/mqtt.rs lines 252-256). -/
def Handle_update_message (name : String) : Message := Message.Update name

/-- Content hash over encoded bytes, modelled as an injective digest.  The
source hashes the payload with std's `DefaultHasher` (a collaborator outside
this crate); the dedup policy defines message equality on the encoded byte
representation, which the injective digest realises exactly. -/
def hashBytes (vec : List Nat) : Nat :=
  vec.foldr (fun b acc => Nat.pair b acc + 1) 0

/-- A call made to the sink's publish operation: topic, payload, retain
flag (`PubOpt::retain()` when the configured flag is set). -/
structure Publication where
  topic : String
  payload : List Nat
  retain : Bool
deriving DecidableEq, Repr

/-- Mutable state of the consumer loop: the `last_messages` name-to-hash map
and the trace of sink publish calls made so far. -/
structure LoopState where
  last_messages : List (String × Nat)
  published : List Publication
deriving DecidableEq, Repr

/-- Lookup in the `last_messages` map. -/
def lookupHash : List (String × Nat) → String → Option Nat
  | [], _ => none
  | (n, h) :: rest, key => if n = key then some h else lookupHash rest key

/-- Insert/overwrite in the `last_messages` map. -/
def insertHash : List (String × Nat) → String → Nat → List (String × Nat)
  | [], key, h => [(key, h)]
  | (n, h0) :: rest, key, h =>
    if n = key then (key, h) :: rest else (n, h0) :: insertHash rest key h

/-- One `Update(name)` cycle of `Publisher::run` (src/mqtt.rs lines 190-221):
`enc` is the result of re-reading the instrument via `serialize_reading`
(`none` models an encode failure, which the loop unwraps — returning `none`
here, i.e. the loop panics).  On success: hash the bytes; on a vacant entry
insert the hash and publish; on an occupied entry publish and overwrite only
when the hash differs; a publish call uses the formatted topic, the encoded
bytes, and the configured retain flag. -/
def processUpdate (retain : Bool) (fmt : String → String) (enc : Option (List Nat))
    (name : String) (st : LoopState) : Option LoopState :=
  match enc with
  | none => none
  | some vec =>
    let h := hashBytes vec
    let step : Bool × List (String × Nat) :=
      match lookupHash st.last_messages name with
      | none => (true, insertHash st.last_messages name h)
      | some h0 =>
        if h0 = h then (false, st.last_messages)
        else (true, insertHash st.last_messages name h)
    some { last_messages := step.2,
           published :=
             if step.1 then
               st.published ++ [{ topic := fmt name, payload := vec, retain := retain }]
             else st.published }

/-- How the modelled finite message prefix left the loop: `terminated` means
a Shutdown message was received and the loop returned; `drained` means the
prefix was consumed and the loop is still in `Running`, blocked in `recv`;
`panicked` means an unwrap inside the loop body failed. -/
inductive LoopExit where
  | terminated
  | drained
  | panicked
deriving DecidableEq, Repr

/-- Result of running the consumer loop over a message prefix. -/
structure RunResult where
  state : LoopState
  exit : LoopExit
deriving DecidableEq, Repr

/-- The consumer loop of `Publisher::run` (src/mqtt.rs lines 187-224) over
the finite prefix of messages delivered on the control queue, in queue
order.  `reads k name` is the encoding of instrument `name`'s current value
at the time the k-th processed message is handled (the loop re-reads current
state, so the environment is indexed by processing step). -/
def runLoop (retain : Bool) (fmt : String → String)
    (reads : Nat → String → Option (List Nat)) :
    Nat → LoopState → List Message → RunResult
  | _, st, [] => { state := st, exit := .drained }
  | _, st, .Shutdown :: _ => { state := st, exit := .terminated }
  | k, st, .Update name :: rest =>
    match processUpdate retain fmt (reads k name) name st with
    | none => { state := st, exit := .panicked }
    | some st' => runLoop retain fmt reads (k + 1) st' rest

/-- `Publisher::run`: the loop starts with an empty `last_messages` map and
no publish calls made. -/
def Publisher_run (retain : Bool) (fmt : String → String)
    (reads : Nat → String → Option (List Nat)) (msgs : List Message) : RunResult :=
  runLoop retain fmt reads 0 { last_messages := [], published := [] } msgs

/-- The multithreaded increment scenario of tests/basic.rs (`multithread`):
the RwLock totally orders writers, so a concurrent execution is an arbitrary
interleaving `sched` of the threads' update calls; each scheduled entry
applies one increment through `Instrument::update`. -/
def run_increments (i : Instrument Nat L) (sched : List (Fin tc)) : Instrument Nat L :=
  sched.foldl (fun inst _ => (inst.update (fun v => v + 1) 0).instr) i

/-! ## Helper lemmas -/

/-- The modelled content digest is injective: distinct byte payloads have
distinct hashes. -/
theorem hashBytes_injective : Function.Injective hashBytes := by
  intro a b hab
  induction a generalizing b with
  | nil =>
    cases b with
    | nil => rfl
    | cons y ys => simp [hashBytes] at hab
  | cons x xs ih =>
    cases b with
    | nil => simp [hashBytes] at hab
    | cons y ys =>
      simp only [hashBytes, List.foldr_cons, Nat.add_right_cancel_iff] at hab
      obtain ⟨h1, h2⟩ := Nat.pair_eq_pair.mp hab
      have := ih (b := ys) h2
      simp [h1, this]

/-- When both locks are clean, `update` produces the same instrument whatever
the listener/name configuration: value mutated, timestamp set, flags clean. -/
theorem update_instr_clean (i : Instrument T L) (f : T → T) (now : Nat)
    (h1 : i.data.poisoned = false) (h2 : i.timestamp.poisoned = false) :
    (i.update f now).instr =
      { i with data := ⟨f i.data.value, false⟩, timestamp := ⟨now, false⟩ } := by
  unfold Instrument.update
  rw [h1, h2]
  simp only [Bool.false_eq_true, if_false]
  cases i.listener <;> cases i.name <;> simp [h1, h2]

/-- `update` succeeds exactly when both locks are clean. -/
theorem update_result_characterisation (i : Instrument T L) (f : T → T) (now : Nat) :
    (i.update f now).result =
      (if i.data.poisoned ∨ i.timestamp.poisoned then .error .PoisonedData else .ok ()) := by
  unfold Instrument.update
  cases hd : i.data.poisoned <;> cases ht : i.timestamp.poisoned <;>
    cases i.listener <;> cases i.name <;> simp [hd, ht]

/-- Looking up a key right after inserting its hash yields that hash. -/
theorem lookupHash_insertHash_self (m : List (String × Nat)) (key : String) (h : Nat) :
    lookupHash (insertHash m key h) key = some h := by
  induction m with
  | nil => simp [insertHash, lookupHash]
  | cons p rest ih =>
    obtain ⟨n, h0⟩ := p
    by_cases hn : n = key
    · simp [insertHash, lookupHash, hn]
    · simp [insertHash, lookupHash, hn, ih]

/-- `serialize_reading` yields `NotFound` exactly for unregistered keys. -/
theorem serialize_reading_notFound_iff (b : Board T L) (key : String)
    (enc : Instrument T L → Except Er B) :
    (serialize_reading b key enc).1 = .error .NotFound ↔ key ∉ instrument_names b := by
  induction b with
  | nil => simp [serialize_reading, instrument_names]
  | cons p rest ih =>
    obtain ⟨n, i⟩ := p
    by_cases hk : key = n
    · subst hk
      cases he : enc i <;> simp [serialize_reading, instrument_names, he]
    · simp [serialize_reading, instrument_names, hk, ih, Ne.symm hk]

/-- `serialize_reading` on an unregistered key invokes no encoder. -/
theorem serialize_reading_notFound_no_output (b : Board T L) (key : String)
    (enc : Instrument T L → Except Er B) (hk : key ∉ instrument_names b) :
    (serialize_reading b key enc).2 = [] := by
  induction b with
  | nil => simp [serialize_reading]
  | cons p rest ih =>
    obtain ⟨n, i⟩ := p
    simp only [instrument_names, List.map_cons, List.mem_cons, not_or] at hk
    simp [serialize_reading, hk.1, ih (by simpa [instrument_names] using hk.2)]

/-- On a registered key, `serialize_reading` delegates to the encoder of the
first instrument registered under that key. -/
theorem serialize_reading_delegates (b : Board T L) (key : String)
    (enc : Instrument T L → Except Er B) (i : Instrument T L)
    (hl : lookup_instrument b key = some i) :
    (serialize_reading b key enc).1 =
      (match enc i with
       | .ok v => .ok v
       | .error e => .error (.SerializationError e)) := by
  induction b with
  | nil => simp [lookup_instrument] at hl
  | cons p rest ih =>
    obtain ⟨n, j⟩ := p
    by_cases hk : key = n
    · subst hk
      simp [lookup_instrument] at hl
      subst hl
      cases he : enc j <;> simp [serialize_reading, he]
    · simp only [lookup_instrument, if_neg hk] at hl
      simp [serialize_reading, hk, ih hl]

/-- A data-lock-poisoned concrete instrument, used to instantiate theorems. -/
def poisonedInstrument : Instrument Nat Unit :=
  { data := ⟨0, true⟩, name := none, listener := none, timestamp := ⟨0, false⟩ }

/-! ## Claim theorems -/

/-- C5: for every instrument and mutator `f`, `update f` acquires the write
lock, applies `f` to the wrapped value in place, and — when a listener is
wired — calls the listener's notify exactly once with the instrument's name;
it fails with the poisoned-lock variant `PoisonedData` exactly when a lock
cannot be acquired cleanly, and whenever the data lock is acquired the
mutation is applied, never silently dropped. -/
theorem instrument_update_spec (i : Instrument T L) (f : T → T) (now : Nat) :
    (i.data.poisoned = false → (i.update f now).instr.data.value = f i.data.value)
    ∧ (i.data.poisoned = false → i.timestamp.poisoned = false →
        ∀ l n, i.listener = some l → i.name = some n →
          (i.update f now).notified = [n] ∧ (i.update f now).result = .ok ())
    ∧ (i.listener = none → (i.update f now).notified = [])
    ∧ ((i.update f now).result = .error .PoisonedData ↔
        (i.data.poisoned = true ∨ i.timestamp.poisoned = true))
    ∧ (i.data.poisoned = true → (i.update f now).instr = i) := by
  refine ⟨?_, ?_, ?_, ?_, ?_⟩
  · intro h1
    cases ht : i.timestamp.poisoned
    · rw [update_instr_clean i f now h1 ht]
    · unfold Instrument.update
      simp [h1, ht]
  · intro h1 h2 l n hl hn
    unfold Instrument.update
    simp [h1, h2, hl, hn]
  · intro hl
    cases hd : i.data.poisoned <;> cases ht : i.timestamp.poisoned <;>
      cases hn : i.name <;> simp [Instrument.update, hd, ht, hn, hl]
  · cases hd : i.data.poisoned <;> cases ht : i.timestamp.poisoned <;>
      simp [update_result_characterisation, hd, ht]
  · intro h1
    unfold Instrument.update
    simp [h1]

/-- C8: `update` never returns `UpdateError::PoisonedTimestamp` — its result
is either `Ok` or `PoisonedData`, and any poisoned lock (data or timestamp)
yields `PoisonedData`, so the `PoisonedTimestamp` variant is unreachable. -/
theorem update_never_returns_poisonedTimestamp (i : Instrument T L) (f : T → T) (now : Nat) :
    ((i.update f now).result = .ok () ∨ (i.update f now).result = .error .PoisonedData)
    ∧ ((i.data.poisoned = true ∨ i.timestamp.poisoned = true) →
        (i.update f now).result = .error .PoisonedData) := by
  cases hd : i.data.poisoned <;> cases ht : i.timestamp.poisoned <;>
    simp [update_result_characterisation, hd, ht]

/-- C9: the `Serialize` implementation on `Instrument` does not fail on a
poisoned value lock: the "value" field is emitted as the `None` case instead
of the wrapped value, and whenever the collaborating serializer accepts the
emitted fields the serialization succeeds. -/
theorem instrument_serialize_poisoned (i : Instrument T L)
    (encValue : Option T → Except Er Unit) (encTs : RwLock Nat → Except Er Unit)
    (hp : i.data.poisoned = true) :
    i.serializeValueField = none
    ∧ (encValue none = .ok () → encTs i.timestamp = .ok () →
        i.serializeWith encValue encTs = .ok ()) := by
  constructor
  · simp [Instrument.serializeValueField, Instrument.read, hp]
  · intro h1 h2
    simp only [Instrument.serializeWith, Instrument.serializeValueField, Instrument.read,
      hp, if_true, h1, h2]
    rfl

/-- C9 witness: a concrete data-poisoned instrument serializes successfully
with its value field encoded as the none case. -/
theorem instrument_serialize_poisoned_witness :
    Instrument.serializeValueField poisonedInstrument = none
    ∧ ((fun _ : Option Nat => (.ok () : Except Unit Unit)) none = .ok () →
        (fun _ : RwLock Nat => (.ok () : Except Unit Unit)) poisonedInstrument.timestamp
          = .ok () →
        Instrument.serializeWith (fun _ : Option Nat => (.ok () : Except Unit Unit))
          (fun _ : RwLock Nat => (.ok () : Except Unit Unit)) poisonedInstrument
          = .ok ()) :=
  instrument_serialize_poisoned poisonedInstrument
    (fun _ => .ok ()) (fun _ => .ok ()) rfl

/-- C4: wiring a listener onto a board sets that same listener (and the
registration key as name) on every contained instrument in registration
order, and the trace of notify calls is exactly the key sequence in
registration order — one initial notification per instrument, k in total,
and nothing further. -/
theorem wire_listener_spec (b : Board T L) (listener : L) :
    (wire_listener b listener).2 = instrument_names b
    ∧ (wire_listener b listener).2.length = b.length
    ∧ (wire_listener b listener).1 =
        b.map (fun p => (p.1, { p.2 with name := some p.1, listener := some listener })) := by
  induction b with
  | nil => simp [wire_listener, instrument_names]
  | cons p rest ih =>
    obtain ⟨n, i⟩ := p
    refine ⟨?_, ?_, ?_⟩
    · simp only [wire_listener, Instrument.set_name_and_listener, instrument_names,
        List.map_cons]
      rw [ih.1]
      simp [instrument_names]
    · simp only [wire_listener, Instrument.set_name_and_listener, List.length_cons]
      rw [List.length_append, ih.1]
      simp only [instrument_names, List.length_map, List.length_singleton]
      omega
    · simp only [wire_listener, Instrument.set_name_and_listener, List.map_cons]
      rw [ih.2.2]

/-- C6: `serialize_reading` fails with `NotFound` exactly when the key is not
registered (invoking no encoder, hence writing no output), and on a
registered key it delegates to the instrument's encoder, wrapping an encoder
failure as `SerializationError` — so unknown keys and encode failures are
distinguishable. -/
theorem serialize_by_name_spec (b : Board T L) (key : String)
    (enc : Instrument T L → Except Er B) :
    ((serialize_reading b key enc).1 = .error .NotFound ↔ key ∉ instrument_names b)
    ∧ (key ∉ instrument_names b → (serialize_reading b key enc).2 = [])
    ∧ (∀ i, lookup_instrument b key = some i →
        (serialize_reading b key enc).1 =
          (match enc i with
           | .ok v => .ok v
           | .error e => .error (.SerializationError e))) :=
  ⟨serialize_reading_notFound_iff b key enc,
   fun hk => serialize_reading_notFound_no_output b key enc hk,
   fun i hi => serialize_reading_delegates b key enc i hi⟩

/-- C10: `serialize_reading` and `instrument_names` agree on membership
(`NotFound` exactly for keys outside the name sequence); `instrument_names`
is the pure key sequence in field registration order, and the derive computes
that sequence with the name overrides applied — for the test board (fields
`dp` and `dp1`, the latter overridden to `info`) it is `["dp", "info"]`. -/
theorem names_membership_spec (b : Board T L) (key : String)
    (enc : Instrument T L → Except Er B) :
    ((serialize_reading b key enc).1 = .error .NotFound ↔ key ∉ instrument_names b)
    ∧ instrument_names b = b.map (fun p => p.1)
    ∧ derive_names [⟨"dp", none⟩, ⟨"dp1", some "info"⟩] = ["dp", "info"] :=
  ⟨serialize_reading_notFound_iff b key enc, rfl, rfl⟩

/-- One successful `Update(name)` cycle of the consumer loop: re-read bytes,
hash them, publish exactly when no equal hash is stored, store the hash,
continue with the rest of the queue. -/
theorem runLoop_update_cycle (retain : Bool) (fmt : String → String)
    (reads : Nat → String → Option (List Nat)) (k : Nat) (st : LoopState)
    (name : String) (vec : List Nat) (rest : List Message)
    (hr : reads k name = some vec) :
    runLoop retain fmt reads k st (Message.Update name :: rest) =
      runLoop retain fmt reads (k + 1)
        { last_messages :=
            if lookupHash st.last_messages name = some (hashBytes vec) then st.last_messages
            else insertHash st.last_messages name (hashBytes vec),
          published :=
            if lookupHash st.last_messages name = some (hashBytes vec) then st.published
            else st.published ++ [⟨fmt name, vec, retain⟩] } rest := by
  simp only [runLoop, hr, processUpdate]
  cases hl : lookupHash st.last_messages name with
  | none => simp [hl]
  | some h0 =>
    by_cases he : h0 = hashBytes vec
    · simp [hl, he]
    · simp [hl, he]

/-- C1: processing `Update(name)` re-reads the instrument's current encoding,
hashes it, publishes (topic = formatted name, payload = the encoded bytes,
retain = the configured flag) exactly when no hash is stored for `name` or
the stored hash differs, leaves the stored hash equal to the new one, and the
loop remains running; two consecutive Update events for the same name produce
exactly one publish call when the encoded value is unchanged, and two calls
with differing payloads when it changed. -/
theorem publisher_update_and_dedup (retain : Bool) (fmt : String → String)
    (reads : Nat → String → Option (List Nat)) (k : Nat) (st : LoopState)
    (name : String) (vec v v' : List Nat)
    (hk : reads k name = some vec) (h0 : reads 0 name = some v)
    (h1 : reads 1 name = some v') :
    ((runLoop retain fmt reads k st [Message.Update name]).exit = LoopExit.drained
      ∧ lookupHash (runLoop retain fmt reads k st [Message.Update name]).state.last_messages
          name = some (hashBytes vec)
      ∧ (runLoop retain fmt reads k st [Message.Update name]).state.published =
          (if lookupHash st.last_messages name = some (hashBytes vec) then st.published
           else st.published ++ [⟨fmt name, vec, retain⟩]))
    ∧ (v' = v →
        (Publisher_run retain fmt reads
            [Message.Update name, Message.Update name]).state.published
          = [⟨fmt name, v, retain⟩])
    ∧ (v' ≠ v →
        (Publisher_run retain fmt reads
            [Message.Update name, Message.Update name]).state.published
          = [⟨fmt name, v, retain⟩, ⟨fmt name, v', retain⟩]) := by
  refine ⟨?_, ?_, ?_⟩
  · rw [runLoop_update_cycle retain fmt reads k st name vec [] hk]
    refine ⟨rfl, ?_, rfl⟩
    by_cases hc : lookupHash st.last_messages name = some (hashBytes vec)
    · simp [runLoop, hc]
    · simp [runLoop, hc, lookupHash_insertHash_self]
  · intro hveq
    subst hveq
    rw [Publisher_run, runLoop_update_cycle retain fmt reads 0 _ name v' _ h0,
      runLoop_update_cycle retain fmt reads 1 _ name v' _ h1]
    simp [runLoop, lookupHash, insertHash]
  · intro hvne
    have hne : hashBytes v ≠ hashBytes v' := fun hcol => hvne (hashBytes_injective hcol).symm
    rw [Publisher_run, runLoop_update_cycle retain fmt reads 0 _ name v _ h0,
      runLoop_update_cycle retain fmt reads 1 _ name v' _ h1]
    simp [runLoop, lookupHash, insertHash, hne]

/-- C1 witness: a concrete run (retain on, identity topic formatter, the
value of "a" encoding as [k] at step k) exercising all three hypotheses. -/
theorem publisher_update_and_dedup_witness :
    (((runLoop true id (fun i _ => some [i]) 5 ⟨[], []⟩ [Message.Update "a"]).exit
        = LoopExit.drained
      ∧ lookupHash (runLoop true id (fun i _ => some [i]) 5 ⟨[], []⟩
            [Message.Update "a"]).state.last_messages "a" = some (hashBytes [5])
      ∧ (runLoop true id (fun i _ => some [i]) 5 ⟨[], []⟩
            [Message.Update "a"]).state.published =
          (if lookupHash (LoopState.mk [] []).last_messages "a" = some (hashBytes [5])
           then (LoopState.mk [] []).published
           else (LoopState.mk [] []).published ++ [⟨id "a", [5], true⟩]))
    ∧ (([1] : List Nat) = [0] →
        (Publisher_run true id (fun i _ => some [i])
            [Message.Update "a", Message.Update "a"]).state.published
          = [⟨id "a", [0], true⟩])
    ∧ (([1] : List Nat) ≠ [0] →
        (Publisher_run true id (fun i _ => some [i])
            [Message.Update "a", Message.Update "a"]).state.published
          = [⟨id "a", [0], true⟩, ⟨id "a", [1], true⟩])) :=
  publisher_update_and_dedup true id (fun i _ => some [i]) 5 ⟨[], []⟩ "a" [5] [0] [1]
    rfl rfl rfl

/-- C2: once a Shutdown message is received the loop returns: every message
delivered before it in queue order has been processed (the final state is
exactly the state after processing the prefix), and no message delivered
after it — Update or further Shutdown — is ever acted upon, so only the first
delivered Shutdown has observable effect. -/
theorem publisher_shutdown_spec (retain : Bool) (fmt : String → String)
    (reads : Nat → String → Option (List Nat)) (k : Nat) (st : LoopState)
    (pre post : List Message)
    (hpre : (runLoop retain fmt reads k st pre).exit = LoopExit.drained) :
    runLoop retain fmt reads k st (pre ++ Message.Shutdown :: post) =
      { state := (runLoop retain fmt reads k st pre).state,
        exit := LoopExit.terminated } := by
  induction pre generalizing k st with
  | nil => simp [runLoop]
  | cons m rest ih =>
    cases m with
    | Shutdown => simp [runLoop] at hpre
    | Update name =>
      cases hp : processUpdate retain fmt (reads k name) name st with
      | none => simp [runLoop, hp] at hpre
      | some st' =>
        simp only [List.cons_append, runLoop, hp] at hpre ⊢
        exact ih (k + 1) st' hpre

/-- C2 witness: a concrete queue [Update "a", Shutdown, Update "b"]: the
prefix is processed, the loop terminates, the trailing Update is ignored. -/
theorem publisher_shutdown_spec_witness :
    (runLoop true id (fun _ _ => some []) 0 ⟨[], []⟩ [Message.Update "a"]).exit
        = LoopExit.drained
    ∧ runLoop true id (fun _ _ => some []) 0 ⟨[], []⟩
          ([Message.Update "a"] ++ Message.Shutdown :: [Message.Update "b"]) =
        { state := (runLoop true id (fun _ _ => some []) 0 ⟨[], []⟩
            [Message.Update "a"]).state,
          exit := LoopExit.terminated } :=
  ⟨rfl, publisher_shutdown_spec true id (fun _ _ => some []) 0 ⟨[], []⟩
    [Message.Update "a"] [Message.Update "b"] rfl⟩

/-- C3 counterexample: with an encoding that fails, processing a single
Update does NOT leave the loop alive — the loop unwraps the serialization
result and panics, so its liveness is not preserved, contradicting the claim
that a serialization failure only aborts that cycle's publish attempt. -/
theorem encode_failure_not_survived_counterexample :
    (Publisher_run true id (fun _ _ => none) [Message.Update "a"]).exit = LoopExit.panicked
    ∧ (Publisher_run true id (fun _ _ => none) [Message.Update "a"]).exit
        ≠ LoopExit.drained := by
  constructor
  · rfl
  · decide

/-- C3 amended: a serialization failure while the loop processes an Update
message aborts that cycle's publish attempt without retry (nothing is
published, the stored hashes and the state for other instruments are
unchanged), but it is not returned to a caller: the loop unwraps the error
and panics, terminating the Publisher loop. -/
theorem encode_failure_panics_loop (retain : Bool) (fmt : String → String)
    (reads : Nat → String → Option (List Nat)) (k : Nat) (st : LoopState)
    (name : String) (rest : List Message) (he : reads k name = none) :
    runLoop retain fmt reads k st (Message.Update name :: rest) =
      { state := st, exit := LoopExit.panicked } := by
  simp [runLoop, he, processUpdate]

/-- C3 amended witness: a concrete failing encode panics the loop with the
state untouched. -/
theorem encode_failure_panics_loop_witness :
    (fun _ _ => (none : Option (List Nat))) 0 "a" = none
    ∧ runLoop true id (fun _ _ => none) 0 ⟨[], []⟩
          [Message.Update "a", Message.Shutdown] =
        { state := ⟨[], []⟩, exit := LoopExit.panicked } :=
  ⟨rfl, encode_failure_panics_loop true id (fun _ _ => none) 0 ⟨[], []⟩ "a"
    [Message.Shutdown] rfl⟩

/-- Every list over `Fin tc` has length equal to the sum of its element
counts. -/
theorem list_length_eq_sum_count {tc : Nat} (l : List (Fin tc)) :
    l.length = ∑ t : Fin tc, l.count t := by
  induction l with
  | nil => simp
  | cons x xs ih =>
    simp only [List.length_cons, List.count_cons, ih]
    rw [Finset.sum_add_distrib]
    simp

/-- Folding increments through `Instrument::update` over a clean instrument
adds the number of scheduled updates to the value and keeps the locks
clean. -/
theorem run_increments_clean {L : Type} {tc : Nat} (sched : List (Fin tc))
    (i : Instrument Nat L) (h1 : i.data.poisoned = false)
    (h2 : i.timestamp.poisoned = false) :
    (run_increments i sched).data.value = i.data.value + sched.length
    ∧ (run_increments i sched).data.poisoned = false := by
  induction sched generalizing i with
  | nil => simp [run_increments, h1]
  | cons x xs ih =>
    have hstep : run_increments i (x :: xs) =
        run_increments ((i.update (fun v => v + 1) 0).instr) xs := rfl
    rw [hstep]
    simp only [update_instr_clean i (fun v => v + 1) 0 h1 h2]
    have h := ih { i with data := ⟨i.data.value + 1, false⟩, timestamp := ⟨0, false⟩ } rfl rfl
    refine ⟨?_, h.2⟩
    rw [h.1]
    show i.data.value + 1 + xs.length = i.data.value + (x :: xs).length
    simp only [List.length_cons]
    omega

/-- C7: an instrument initialised to 0 and updated by `tc` threads each
performing `n` increment updates reads exactly `tc * n` after all threads
join — under the RwLock's total ordering of writers, any interleaving of the
threads' update calls loses no update and leaves the lock uncorrupted. -/
theorem concurrent_increments_spec {L : Type} (tc n : Nat) (sched : List (Fin tc))
    (hcount : ∀ t : Fin tc, sched.count t = n) :
    (run_increments (L := L) (Instrument.new 0) sched).read = Except.ok (tc * n) := by
  have hlen : sched.length = tc * n := by
    rw [list_length_eq_sum_count]
    simp [hcount, Finset.sum_const, Finset.card_univ, mul_comm]
  have h := run_increments_clean sched (Instrument.new (L := L) 0) rfl rfl
  rw [Instrument.read, if_neg (by simp [h.2])]
  rw [h.1]
  simp [Instrument.new, hlen]

/-- C7 witness: two threads, two increments each, in a concrete
interleaving: the final read is exactly 4. -/
theorem concurrent_increments_spec_witness :
    (run_increments (L := Unit) (Instrument.new 0) ([0, 1, 0, 1] : List (Fin 2))).read
      = Except.ok (2 * 2) :=
  concurrent_increments_spec 2 2 [0, 1, 0, 1] (by decide)

end Rapt
